import Mathlib

/-!
Verification of the Clarity.fm browser-automation client
(`scripts/clarity-client.ts`, `scripts/budget-tracker.ts`).

The development is a shallow embedding: JavaScript numbers are modelled as
rationals (`ℚ`), nullable fields as `Option`, the regex-matching layer is
abstracted into pre-parsed match results, and on-disk JSON files are modelled
as a `FileState` that is either missing, unreadable, or holds a parsed value.
Each definition mirrors one function of the source; theorems at the end of
the file settle the specification claims against these definitions.
-/

/-- Rounding used by `calculateValueScore`: JavaScript
`Math.round(x * 100) / 100`, where `Math.round x = ⌊x + 1/2⌋`. -/
def round2 (x : ℚ) : ℚ := (⌊x * 100 + 1 / 2⌋ : ℤ) / 100

/-- `calculateValueScore` (clarity-client.ts:545-549): `null` when `rating`
or `reviewCount` is `null`; `0` when `rate ≤ 0`; otherwise
`Math.round(((reviewCount * rating) / rate) * 100) / 100`. -/
def calculateValueScore (reviewCount rating : Option ℚ) (rate : ℚ) : Option ℚ :=
  match rating, reviewCount with
  | none, _ => none
  | _, none => none
  | some rt, some rc => if rate ≤ 0 then some 0 else some (round2 (rc * rt / rate))

/-- The `ExpertProfile` interface (clarity-client.ts:61-74). `number | null`
fields are `Option ℚ`. -/
structure ExpertProfile where
  name : String
  username : String
  url : String
  rate : ℚ
  rateDisplay : String
  bio : String
  expertise : List String
  totalCalls : ℕ
  rating : Option ℚ
  reviewCount : Option ℚ
  valueScore : Option ℚ
  availability : String
deriving DecidableEq

/-- State of a persisted JSON file: absent, present but not parseable
(`JSON.parse` throws), or present with a parsed value. -/
inductive FileState (α : Type) where
  | missing : FileState α
  | corrupt : FileState α
  | stored : α → FileState α
deriving DecidableEq

/-- The `SessionInfo` interface (clarity-client.ts:44-50). -/
structure SessionInfo where
  wsEndpoint : String
  createdAt : String
  loggedIn : Bool
  bookingFilled : Bool
  currentExpert : Option String
deriving DecidableEq

/-- `getSession` (clarity-client.ts:225-232): `null` when the session file is
missing, `null` when `JSON.parse` throws, otherwise the parsed record. -/
def getSession : FileState SessionInfo → Option SessionInfo
  | .missing => none
  | .corrupt => none
  | .stored s => some s

/-- One `BudgetEntry` of the budget ledger (budget-tracker.ts:17-23). -/
structure BudgetEntry where
  date : String
  expert : String
  duration : ℚ
  costPerMinute : ℚ
  estimatedTotal : ℚ
deriving DecidableEq

/-- The `BudgetData` ledger document (budget-tracker.ts:25-28); the
`entries` record keyed by `YYYY-MM` is an association list. -/
structure BudgetData where
  monthlyCap : ℚ
  entries : List (String × List BudgetEntry)
deriving DecidableEq

/-- `BudgetTracker.load` (budget-tracker.ts:37-49): the default
`{ monthlyCap: 0, entries: {} }` when the ledger file is missing or
`JSON.parse` throws, otherwise the parsed document. -/
def BudgetTracker.load : FileState BudgetData → BudgetData
  | .missing => ⟨0, []⟩
  | .corrupt => ⟨0, []⟩
  | .stored d => d

/-- One candidate `<li>` card of a browse page, abstracted to the values its
DOM queries produce inside the `page.evaluate` of `searchExperts`
(clarity-client.ts:681-769): the two text markers, the username taken from
the first non-navigation internal link (`""` when none), the rate parsed
from the first `$`-strong (`0` when none), the name from the first
non-`$`-strong (`""` when none), the parenthesized call count, and the
cleaned bio text. -/
structure Card where
  hasPerMinute : Bool
  hasRequestCall : Bool
  username : String
  rateNum : ℚ
  rateDisplay : String
  name : String
  totalCalls : ℕ
  bio : String
deriving DecidableEq

/-- The dual-marker card filter (clarity-client.ts:688-691): list items whose
text contains both `"per minute"` and `"Request a Call"`. -/
def isCandidate (c : Card) : Bool := c.hasPerMinute && c.hasRequestCall

/-- The lower rate check (clarity-client.ts:725):
`if (opts.minRate && rateNum < opts.minRate) continue` — by JavaScript
truthiness an absent or zero `minRate` disables the check. -/
def skipLow : Option ℚ → ℚ → Bool
  | some m, r => decide (m ≠ 0) && decide (r < m)
  | none, _ => false

/-- The upper rate check (clarity-client.ts:726):
`if (opts.maxRate && rateNum > opts.maxRate) continue` — by JavaScript
truthiness an absent or zero `maxRate` disables the check. -/
def skipHigh : Option ℚ → ℚ → Bool
  | some m, r => decide (m ≠ 0) && decide (m < r)
  | none, _ => false

/-- The record pushed for one card (clarity-client.ts:750-763). -/
def cardRecord (c : Card) : ExpertProfile where
  name := if c.name = "" then c.username else c.name
  username := c.username
  url := "https://clarity.fm/" ++ c.username
  rate := c.rateNum
  rateDisplay := c.rateDisplay
  bio := c.bio
  expertise := []
  totalCalls := c.totalCalls
  rating := none
  reviewCount := none
  valueScore := none
  availability := ""

/-- The per-card loop body of `searchExperts` (clarity-client.ts:693-765):
`continue` on an out-of-range rate, push only when `name || username` is
truthy. -/
def extractLoop (minRate maxRate : Option ℚ) : List Card → List ExpertProfile
  | [] => []
  | c :: cs =>
    if skipLow minRate c.rateNum || skipHigh maxRate c.rateNum then
      extractLoop minRate maxRate cs
    else if !(c.name == "") || !(c.username == "") then
      cardRecord c :: extractLoop minRate maxRate cs
    else
      extractLoop minRate maxRate cs

/-- Listing extraction (clarity-client.ts:681-769): the dual-marker filter
selects candidate cards, `cards.slice(0, opts.maxResults)` truncates them,
and only then is each surviving card run through the per-card loop. -/
def extractCards (items : List Card) (maxResults : ℕ) (minRate maxRate : Option ℚ) :
    List ExpertProfile :=
  extractLoop minRate maxRate (((items.filter isCandidate).take maxResults))

/-- Modelled from the spec: listing extraction as §4.3 words it, with
rate-range filtering applied "immediately, discarding out-of-range cards
before they count toward `limit`" — candidates are rate-filtered first and
only then truncated to `limit`. Kept for comparison with `extractCards`. -/
def extractCardsSpecOrder (items : List Card) (maxResults : ℕ)
    (minRate maxRate : Option ℚ) : List ExpertProfile :=
  extractLoop minRate maxRate
    (((items.filter isCandidate).filter
      (fun c => !(skipLow minRate c.rateNum || skipHigh maxRate c.rateNum))).take maxResults)

/-- `const limit = Math.min(options.limit || 10, 20)`
(clarity-client.ts:676). -/
def computeLimit : Option ℕ → ℕ
  | some n => min (if n = 0 then 10 else n) 20
  | none => min 10 20

/-- The JavaScript comparator of the post-enrichment re-sort
(clarity-client.ts:792-797). -/
def jsCompare (a b : ExpertProfile) : ℚ :=
  match a.valueScore, b.valueScore with
  | some x, some y => y - x
  | some _, none => -1
  | none, some _ => 1
  | none, none => 0

/-- The ordering induced by the comparator: `a` may precede `b` exactly when
the comparator is nonpositive. -/
def sortLe (a b : ExpertProfile) : Bool := decide (jsCompare a b ≤ 0)

/-- `experts.sort(comparator)` (clarity-client.ts:792-797): ECMAScript
`Array.prototype.sort` is required to be stable and consistent with the
comparator, modelled as a stable merge sort by `sortLe`. -/
def sortExperts (l : List ExpertProfile) : List ExpertProfile := l.mergeSort sortLe

/-- Result of one profile-tab scrape in `enrichProfiles`
(clarity-client.ts:585-604): the rating and review count parsed from the
profile page, each possibly `null`. -/
structure ProfileData where
  rating : Option ℚ
  reviewCount : Option ℚ
deriving DecidableEq

/-- Application of one settled fetch outcome (clarity-client.ts:614-625): a
fulfilled fetch overwrites `rating` and `reviewCount` and recomputes
`valueScore` from the record's own `rate`; a rejected fetch leaves the
record as it was. -/
def applyResult : Option ProfileData → ExpertProfile → ExpertProfile
  | none, e => e
  | some d, e =>
    { e with rating := d.rating, reviewCount := d.reviewCount,
             valueScore := calculateValueScore d.reviewCount d.rating e.rate }

/-- Application of one batch: positions `lo ≤ idx < hi` receive their fetch
outcome (`j` is the absolute position of the list head). -/
def applyFetch (fetch : ℕ → Option ProfileData) (lo hi : ℕ) :
    ℕ → List ExpertProfile → List ExpertProfile
  | _, [] => []
  | j, e :: es =>
    (if lo ≤ j ∧ j < hi then applyResult (fetch j) e else e) ::
      applyFetch fetch lo hi (j + 1) es

/-- The batch loop of `enrichProfiles` (clarity-client.ts:572-626):
`for (let i = 0; i < enriched.length; i += 3)`, each iteration settling the
batch `[i, i+3)` with `Promise.allSettled`. `fuel` bounds the number of
iterations; `enrichProfiles` supplies enough for the loop to run out. -/
def enrichGo (fetch : ℕ → Option ProfileData) :
    ℕ → ℕ → List ExpertProfile → List ExpertProfile
  | 0, _, l => l
  | fuel + 1, i, l =>
    if i < l.length then enrichGo fetch fuel (i + 3) (applyFetch fetch i (i + 3) 0 l)
    else l

/-- `enrichProfiles` (clarity-client.ts:568-629), with the per-profile
network outcome abstracted as `fetch`: `fetch idx = none` models a rejected
promise (navigation failure) for the record at position `idx`. -/
def enrichProfiles (experts : List ExpertProfile) (fetch : ℕ → Option ProfileData) :
    List ExpertProfile :=
  enrichGo fetch experts.length 0 experts

/-- The value-score pass over freshly extracted records
(clarity-client.ts:772-774). -/
def withValueScore (e : ExpertProfile) : ExpertProfile :=
  { e with valueScore := calculateValueScore e.reviewCount e.rating e.rate }

/-- The pre-enrichment search result: extraction with
`limit = Math.min(options.limit || 10, 20)` followed by the value-score pass
(clarity-client.ts:676-774). -/
def searchResults (items : List Card) (limit? : Option ℕ)
    (minRate maxRate : Option ℚ) : List ExpertProfile :=
  (extractCards items (computeLimit limit?) minRate maxRate).map withValueScore

/-- `searchExperts` (clarity-client.ts:635-810) after page navigation: the
pre-enrichment result and — when `enrich > 0` and results exist —
enrichment of the first `enrich` records spliced back in by index, followed
by the re-sort. -/
def searchExperts (items : List Card) (limit? : Option ℕ) (minRate maxRate : Option ℚ)
    (enrich? : Option ℕ) (fetch : ℕ → Option ProfileData) : List ExpertProfile :=
  match enrich? with
  | some n =>
    if 0 < n ∧ searchResults items limit? minRate maxRate ≠ [] then
      sortExperts
        (enrichProfiles ((searchResults items limit? minRate maxRate).take n) fetch ++
          (searchResults items limit? minRate maxRate).drop
            (enrichProfiles ((searchResults items limit? minRate maxRate).take n) fetch).length)
    else searchResults items limit? minRate maxRate
  | none => searchResults items limit? minRate maxRate

/-- A profile page as seen by the `page.evaluate` of `viewProfile`
(clarity-client.ts:846-946), abstracted to its regex-match results: the
successive numeric values matched by the rating pattern, the parsed
review-count, call-count and rate matches (`none` when the marker is absent
from the page text), and the extracted name, rate display, bio and
expertise values. -/
structure ProfileText where
  ratingMatches : List ℚ
  reviewMatch : Option ℕ
  callMatch : Option ℕ
  rateMatch : Option ℚ
  rateDisplayText : String
  nameText : String
  bioText : String
  expertiseLinks : List String
deriving DecidableEq

/-- The rating loop of `viewProfile` (clarity-client.ts:880-885): the first
matched value in `(0, 5]`, if any. -/
def firstValidRating : List ℚ → Option ℚ
  | [] => none
  | v :: vs => if 0 < v ∧ v ≤ 5 then some v else firstValidRating vs

/-- The record built inside `viewProfile`'s `page.evaluate`
(clarity-client.ts:846-946). `rating` starts at the number `0` and is only
overwritten by a valid rating match; `reviewCount` and `totalCalls` default
to `0` when their markers are absent; `valueScore` is the placeholder `0`. -/
def viewProfileEvaluate (uname : String) (p : ProfileText) : ExpertProfile where
  name := if p.nameText = "" then uname else p.nameText
  username := uname
  url := "https://clarity.fm/" ++ uname
  rate := (p.rateMatch).getD 0
  rateDisplay := p.rateDisplayText
  bio := p.bioText
  expertise := p.expertiseLinks
  totalCalls := (p.callMatch).getD 0
  rating := some ((firstValidRating p.ratingMatches).getD 0)
  reviewCount := some (((p.reviewMatch).map (fun n => (n : ℚ))).getD 0)
  valueScore := some 0
  availability := ""

/-- `viewProfile` (clarity-client.ts:816-955) on a successfully loaded page:
the evaluated record with `valueScore` recomputed by `calculateValueScore`
(clarity-client.ts:948). -/
def viewProfile (uname : String) (p : ProfileText) : ExpertProfile :=
  let prof := viewProfileEvaluate uname p
  { prof with valueScore := calculateValueScore prof.reviewCount prof.rating prof.rate }

/-- JavaScript `String.prototype.toLowerCase`, character by character. -/
def strLower (s : String) : String := ⟨s.data.map Char.toLower⟩

/-- JavaScript `String.prototype.trim`: whitespace stripped from both
ends. -/
def strTrim (s : String) : String :=
  ⟨((s.data.dropWhile Char.isWhitespace).reverse.dropWhile Char.isWhitespace).reverse⟩

/-- Initial-segment test on character lists: `listStartsWith k l` holds when
`k` begins `l`. -/
def listStartsWith : List Char → List Char → Bool
  | [], _ => true
  | _ :: _, [] => false
  | a :: as, b :: bs => a == b && listStartsWith as bs

/-- JavaScript `String.prototype.includes`, on character lists. -/
def listIncludes (k : List Char) : List Char → Bool
  | [] => k.isEmpty
  | c :: cs => listStartsWith k (c :: cs) || listIncludes k cs

/-- `q.includes(key)` of `queryToBrowseUrl` (clarity-client.ts:323). -/
def strIncludes (q key : String) : Bool := listIncludes key.data q.data

/-- The `CATEGORY_MAP` of `queryToBrowseUrl` (clarity-client.ts:253-312), in
source order (`Object.entries` iterates string keys in insertion order). -/
def CATEGORY_MAP : List (String × String) :=
  [("business", "business"),
   ("strategy", "business/strategy"),
   ("business strategy", "business/strategy"),
   ("branding", "business/branding"),
   ("career", "business/career-advice"),
   ("financial", "business/financial-consulting"),
   ("hr", "business/human-resources"),
   ("human resources", "business/human-resources"),
   ("legal", "business/legal"),
   ("business development", "business/business-development"),
   ("marketing", "sales-marketing"),
   ("marketing strategy", "sales-marketing"),
   ("social media", "sales-marketing/social-media-marketing"),
   ("social media marketing", "sales-marketing/social-media-marketing"),
   ("seo", "sales-marketing/search-engine-optimization"),
   ("pr", "sales-marketing/public-relations"),
   ("public relations", "sales-marketing/public-relations"),
   ("email marketing", "sales-marketing/email-marketing"),
   ("inbound marketing", "sales-marketing/inbound-marketing"),
   ("growth", "sales-marketing/growth-strategy"),
   ("growth strategy", "sales-marketing/growth-strategy"),
   ("advertising", "sales-marketing/advertising"),
   ("copywriting", "marketing-advertising/copywriting"),
   ("sales", "sales-marketing/sales-lead-generation"),
   ("digital marketing", "sales-marketing"),
   ("funding", "funding"),
   ("finance", "funding/finance"),
   ("crowdfunding", "raising-capital/crowdfunding"),
   ("kickstarter", "raising-capital/kickstarter"),
   ("venture capital", "raising-capital/venture-capital"),
   ("vc", "raising-capital/venture-capital"),
   ("product", "product-design"),
   ("design", "product-design"),
   ("product design", "product-design"),
   ("ux", "product-design/user-experience"),
   ("user experience", "product-design/user-experience"),
   ("lean startup", "product-design/lean-startup"),
   ("product management", "product-design/product-management"),
   ("analytics", "product-design/metrics-analytics"),
   ("technology", "technology"),
   ("tech", "technology"),
   ("software", "technology/software-development"),
   ("mobile", "technology/mobile"),
   ("wordpress", "technology/wordpress"),
   ("crm", "technology/crm"),
   ("ecommerce", "industries/e-commerce"),
   ("e-commerce", "industries/e-commerce"),
   ("saas", "industries/saas"),
   ("education", "industries/education"),
   ("real estate", "industries/real-estate"),
   ("marketplace", "industries/marketplaces"),
   ("marketplaces", "industries/marketplaces"),
   ("nonprofit", "industries/nonprofit"),
   ("entrepreneurship", "skills-management/entrepreneurship"),
   ("leadership", "skills-management/leadership"),
   ("coaching", "skills-management/coaching"),
   ("productivity", "skills-management/productivity"),
   ("public speaking", "skills-management/public-speaking")]

/-- The exact-match lookup `CATEGORY_MAP[q]` (clarity-client.ts:315). -/
def lookupExact (q : String) : Option String :=
  (CATEGORY_MAP.find? (fun kp => kp.1 == q)).map (fun kp => kp.2)

/-- One step of the partial-match scan (clarity-client.ts:322-327): a key
replaces the best match so far when it is a substring of the query and
strictly longer than the best key so far. -/
def bestStep (q : String) (acc kp : String × String) : String × String :=
  if strIncludes q kp.1 && decide (acc.1.length < kp.1.length) then kp else acc

/-- The partial-match scan over all mapping entries
(clarity-client.ts:320-327). -/
def bestCategoryMatch (q : String) : String × String :=
  CATEGORY_MAP.foldl (bestStep q) ("", "")

/-- The partial-match/fallback tail of `queryToBrowseUrl`
(clarity-client.ts:319-333): the best partial match when one was found,
otherwise the unfiltered browse URL. -/
def queryPartialBranch (q : String) : String :=
  let best := bestCategoryMatch q
  if best.2 ≠ "" then "https://clarity.fm/browse/" ++ best.2
  else "https://clarity.fm/browse"

/-- `queryToBrowseUrl` (clarity-client.ts:250-334): lower-case and trim the
query, return the exact category match when its path is truthy, otherwise
the longest partial match, otherwise the browse fallback. -/
def queryToBrowseUrl (query : String) : String :=
  let q := strTrim (strLower query)
  match lookupExact q with
  | some path =>
    if path ≠ "" then "https://clarity.fm/browse/" ++ path
    else queryPartialBranch q
  | none => queryPartialBranch q

/-- One observable browser interaction of `submitBooking`. -/
inductive BrowserAction where
  | acquireBrowser : BrowserAction
  | querySelector : String → BrowserAction
  | click : String → BrowserAction
  | waitMs : ℕ → BrowserAction
  | screenshot : String → BrowserAction
  | evalConfirmation : BrowserAction
  | saveStorage : BrowserAction
deriving DecidableEq

/-- The confirmation record extracted after a submit
(clarity-client.ts:1254-1269). -/
structure Confirmation where
  clarityCallId : Option String
  scheduledAt : Option String
  dialInNumber : Option String
  estimatedTotal : Option ℚ
deriving DecidableEq

/-- The page environment `submitBooking` runs against: which selectors
resolve to a visible button, whether payment-provider markers are present
after the submit click, and the confirmation data the page text yields. -/
structure SubmitEnv where
  visibleButton : String → Bool
  paymentMarkers : Bool
  confirmation : Confirmation

/-- The ordered submit selector list (clarity-client.ts:1200-1209). -/
def submitSelectors : List String :=
  ["button:has-text(\"Request Call\")",
   "button:has-text(\"Confirm\")",
   "button:has-text(\"Submit\")",
   "button:has-text(\"Book\")",
   "button:has-text(\"Send Request\")",
   "button[type=\"submit\"]",
   "[class*=\"submit-button\"]",
   "[class*=\"confirm-button\"]"]

/-- Structured results of `submitBooking` (clarity-client.ts:1187-1290). -/
inductive SubmitResult where
  | errorNoFill : SubmitResult
  | errorNoButton : SubmitResult
  | paymentDeferred : SubmitResult
  | submitted : Confirmation → Option String → SubmitResult
deriving DecidableEq

/-- The selector loop of `submitBooking` (clarity-client.ts:1211-1221): each
candidate selector is queried in order until one resolves to a visible
button, which is then clicked. -/
def findSubmitButton (env : SubmitEnv) : List String → Option String × List BrowserAction
  | [] => (none, [])
  | s :: rest =>
    if env.visibleButton s then (some s, [.querySelector s, .click s])
    else
      let r := findSubmitButton env rest
      (r.1, .querySelector s :: r.2)

/-- `submitBooking` (clarity-client.ts:1187-1290): the fail-closed session
check (`if (!session?.bookingFilled) return error`) precedes every browser
interaction; afterwards the browser is acquired, the submit control located
and clicked, the payment check performed after a settle delay, and on
success the confirmation extracted, storage persisted, and the session's
`bookingFilled` flag cleared. Returns the structured result, the trace of
browser interactions, and the resulting session-file state. -/
def submitBooking (fs : FileState SessionInfo) (env : SubmitEnv) :
    SubmitResult × List BrowserAction × FileState SessionInfo :=
  match getSession fs with
  | none => (.errorNoFill, [], fs)
  | some s =>
    if !s.bookingFilled then (.errorNoFill, [], fs)
    else
      let found := findSubmitButton env submitSelectors
      match found.1 with
      | none =>
        (.errorNoButton, .acquireBrowser :: found.2 ++ [.screenshot "submit-no-button"], fs)
      | some _ =>
        if env.paymentMarkers then
          (.paymentDeferred,
           .acquireBrowser :: found.2 ++
             [.waitMs 5000, .querySelector "payment-markers", .screenshot "payment-step"],
           fs)
        else
          (.submitted env.confirmation s.currentExpert,
           .acquireBrowser :: found.2 ++
             [.waitMs 5000, .querySelector "payment-markers",
              .screenshot "booking-confirmed", .evalConfirmation, .saveStorage],
           .stored { s with bookingFilled := false })

/-- Concrete candidate card with an in-range rate, used by witnesses and
counterexamples. -/
def cardBob : Card :=
  ⟨true, true, "bob", 5, "$5.00/min", "Bob",
   34, "Growth marketing advisor for early-stage SaaS companies."⟩

/-- Concrete candidate card with a high rate, used by witnesses and
counterexamples. -/
def cardAlice : Card :=
  ⟨true, true, "alice", 100, "$100.00/min", "Alice",
   12, "Pricing strategy advisor."⟩

/-- A profile page whose text contains a rate marker but no rating marker
and no review-count marker. -/
def pageNoMarkers : ProfileText :=
  ⟨[], none, some 42, some 2, "$2.00/min", "Alice Expert", "Bio text.", []⟩

/-- A submit environment with no visible buttons and no payment markers,
used by the C1 witness. -/
def quietEnv : SubmitEnv := ⟨fun _ => false, false, ⟨none, none, none, none⟩⟩

/-- Four concrete records spanning two enrichment batches, used by the C7
witness. -/
def sampleExperts : List ExpertProfile :=
  [cardRecord cardAlice, cardRecord cardBob,
   { cardRecord cardBob with username := "carol" },
   { cardRecord cardAlice with username := "dana" }]

/-- Three concrete records with mixed defined/undefined value scores, used
by the C6 witness. -/
def sortSample : List ExpertProfile :=
  [cardRecord cardAlice,
   { cardRecord cardBob with valueScore := some 2 },
   { cardRecord cardBob with valueScore := some 7, username := "carol" }]

-- Theorems: claim-by-claim verification results and their helper lemmas.

/-- Unfolding of the per-card loop into filter-then-map form. -/
theorem extractLoop_eq_filter_map (minRate maxRate : Option ℚ) (cs : List Card) :
    extractLoop minRate maxRate cs =
      (cs.filter (fun c =>
        !(skipLow minRate c.rateNum || skipHigh maxRate c.rateNum) &&
        (!(c.name == "") || !(c.username == "")))).map cardRecord := by
  induction cs with
  | nil => rfl
  | cons c cs ih =>
    by_cases hs : (skipLow minRate c.rateNum || skipHigh maxRate c.rateNum) = true
    · rw [List.filter_cons]
      simp only [extractLoop, hs, if_true, Bool.not_true, Bool.false_and,
        Bool.false_eq_true, if_false]
      exact ih
    · rw [Bool.not_eq_true] at hs
      by_cases hn : (!(c.name == "") || !(c.username == "")) = true
      · rw [List.filter_cons]
        simp only [extractLoop, hs, Bool.false_eq_true, if_false, hn, if_true,
          Bool.not_false, Bool.true_and, List.map_cons]
        rw [ih]
      · rw [Bool.not_eq_true] at hn
        rw [List.filter_cons]
        simp only [extractLoop, hs, Bool.false_eq_true, if_false, hn,
          Bool.not_false, Bool.true_and]
        exact ih

/-- Every record produced by the per-card loop comes from a card of the input
that passed both rate checks. -/
theorem extractLoop_mem {minRate maxRate : Option ℚ} {cs : List Card}
    {e : ExpertProfile} (h : e ∈ extractLoop minRate maxRate cs) :
    ∃ c ∈ cs, e = cardRecord c ∧
      skipLow minRate c.rateNum = false ∧ skipHigh maxRate c.rateNum = false := by
  rw [extractLoop_eq_filter_map] at h
  obtain ⟨c, hc, rfl⟩ := List.mem_map.mp h
  have hmem := List.mem_of_mem_filter hc
  have hprop := List.of_mem_filter hc
  simp only [Bool.and_eq_true, Bool.not_eq_true', Bool.or_eq_false_iff] at hprop
  exact ⟨c, hmem, rfl, hprop.1.1, hprop.1.2⟩

/-- C2: `calculateValueScore` is absent exactly when `rating` or
`reviewCount` is absent; when both are present it is `0` for `rate ≤ 0` and
otherwise `(reviewCount × rating) / rate` rounded to 2 decimals — absence
(`none`) and zero (`some 0`) are distinct outcomes. -/
theorem calculateValueScore_spec (rc rt : Option ℚ) (rate : ℚ) :
    (calculateValueScore rc rt rate = none ↔ rc = none ∨ rt = none) ∧
    (∀ c r, rc = some c → rt = some r → rate ≤ 0 →
      calculateValueScore rc rt rate = some 0) ∧
    (∀ c r, rc = some c → rt = some r → 0 < rate →
      calculateValueScore rc rt rate = some (round2 (c * r / rate))) := by
  refine ⟨?_, ?_, ?_⟩
  · cases rc <;> cases rt <;> simp [calculateValueScore]
    intro h
    exact absurd h (by split <;> simp)
  · rintro c r rfl rfl h
    simp [calculateValueScore, h]
  · rintro c r rfl rfl h
    simp [calculateValueScore, not_le.mpr h]

/-- Witness for C2: at `reviewCount = 3`, `rating = 4`, `rate = 2` the score
is `round2 (3 * 4 / 2) = 6`; with an absent rating it is absent. -/
theorem calculateValueScore_spec_witness :
    calculateValueScore (some 3) (some 4) 2 = some 6 ∧
    calculateValueScore (some 3) none 2 = none := by
  constructor
  · rw [(calculateValueScore_spec (some 3) (some 4) 2).2.2 3 4 rfl rfl (by norm_num)]
    norm_num [round2]
  · exact ((calculateValueScore_spec (some 3) none 2).1).mpr (Or.inr rfl)

/-- C9: reading each persisted state file tolerates absence and corruption:
a missing or unparseable session file reads as `null`, and a missing or
unparseable budget ledger reads as the empty ledger with zero cap. -/
theorem persisted_state_tolerant :
    getSession .missing = none ∧
    getSession .corrupt = none ∧
    BudgetTracker.load .missing = ⟨0, []⟩ ∧
    BudgetTracker.load .corrupt = ⟨0, []⟩ := by
  exact ⟨rfl, rfl, rfl, rfl⟩

/-- C1: whenever no session record with `bookingFilled = true` exists — the
session file is missing, unreadable, or records `bookingFilled = false` —
`submitBooking` returns the structured no-fill error and performs no browser
interaction at all: the browser is not acquired, no selector is queried, no
click is issued, and the session file is left unchanged. -/
theorem submitBooking_fails_closed (fs : FileState SessionInfo) (env : SubmitEnv)
    (h : ∀ s, getSession fs = some s → s.bookingFilled = false) :
    submitBooking fs env = (.errorNoFill, [], fs) := by
  cases fs with
  | missing => rfl
  | corrupt => rfl
  | stored s =>
    have hb := h s rfl
    simp [submitBooking, getSession, hb]

/-- Witness for C1: with no session file at all, submit fails closed with an
empty interaction trace. -/
theorem submitBooking_fails_closed_witness :
    submitBooking .missing quietEnv = (.errorNoFill, [], .missing) :=
  submitBooking_fails_closed .missing quietEnv (fun s h => by simp [getSession] at h)

/-- C3: evaluation of `viewProfile` on a profile page whose text has no
rating marker and no review-count marker. The code returns the numbers `0`
for `rating` and `reviewCount` (clarity-client.ts:881, 892 default to `0`,
unlike the `null` defaults of `enrichProfiles`) and therefore computes
`valueScore = 0`, where the specification requires all three fields to be
absent. -/
theorem viewProfile_zero_defaults :
    (viewProfile "alice" pageNoMarkers).rating = some 0 ∧
    (viewProfile "alice" pageNoMarkers).reviewCount = some 0 ∧
    (viewProfile "alice" pageNoMarkers).valueScore = some 0 := by
  refine ⟨rfl, rfl, ?_⟩
  show calculateValueScore (some 0) (some 0) 2 = some 0
  rw [calculateValueScore]
  norm_num [round2]

/-- C4 (amended): in listing extraction, `cards.slice(0, opts.maxResults)`
runs before the rate-range checks, so the result is the per-card rate and
name filter applied to only the first `limit` candidate cards: out-of-range
cards among the first `limit` candidates consume result slots, and in-range
cards beyond the first `limit` candidates never appear. -/
theorem extractCards_limit_before_filter (items : List Card) (limit : ℕ)
    (minRate maxRate : Option ℚ) :
    extractCards items limit minRate maxRate =
      (((items.filter isCandidate).take limit).filter (fun c =>
        !(skipLow minRate c.rateNum || skipHigh maxRate c.rateNum) &&
        (!(c.name == "") || !(c.username == "")))).map cardRecord :=
  extractLoop_eq_filter_map minRate maxRate ((items.filter isCandidate).take limit)

/-- Counterexample for C4 as stated: two candidate cards, `limit = 1`,
`maxRate = 10`. The out-of-range first card (rate 100) consumes the only
slot, so the in-range second card (rate 5) is lost and the result is empty;
filtering before the limit, as the claim states, would return the second
card. -/
theorem extractCards_filter_order_counterexample :
    extractCards [cardAlice, cardBob] 1 none (some 10) = [] ∧
    extractCardsSpecOrder [cardAlice, cardBob] 1 none (some 10) = [cardRecord cardBob] := by
  decide

/-- C10: a rate bound equal to `0` (or absent) disables that bound instead of
filtering: zero or absent `minRate` and `maxRate` make the corresponding
skip checks constantly false, extraction with a zero bound equals extraction
with that bound absent, and a search with `maxRate = 0` returns the
unfiltered card set rather than an empty result. -/
theorem zero_rate_bound_disables_filter :
    (∀ r : ℚ, skipLow (some 0) r = false) ∧
    (∀ r : ℚ, skipLow none r = false) ∧
    (∀ r : ℚ, skipHigh (some 0) r = false) ∧
    (∀ r : ℚ, skipHigh none r = false) ∧
    (∀ items limit minRate, extractCards items limit minRate (some 0) =
      extractCards items limit minRate none) ∧
    (∀ items limit maxRate, extractCards items limit (some 0) maxRate =
      extractCards items limit none maxRate) ∧
    (∀ items limit? minRate enrich? fetch,
      searchExperts items limit? minRate (some 0) enrich? fetch =
        searchExperts items limit? minRate none enrich? fetch) := by
  have hl : ∀ r : ℚ, skipLow (some 0) r = false := by intro r; simp [skipLow]
  have hh : ∀ r : ℚ, skipHigh (some 0) r = false := by intro r; simp [skipHigh]
  have hcards : ∀ items limit minRate, extractCards items limit minRate (some 0) =
      extractCards items limit minRate none := by
    intro items limit minRate
    simp only [extractCards, extractLoop_eq_filter_map]
    congr 1
  have hcards2 : ∀ items limit maxRate, extractCards items limit (some 0) maxRate =
      extractCards items limit none maxRate := by
    intro items limit maxRate
    simp only [extractCards, extractLoop_eq_filter_map]
    congr 1
  refine ⟨hl, fun r => rfl, hh, fun r => rfl, hcards, hcards2, ?_⟩
  intro items limit? minRate enrich? fetch
  have hsr : searchResults items limit? minRate (some 0) =
      searchResults items limit? minRate none := by
    simp only [searchResults, hcards]
  simp only [searchExperts, hsr]

/-- The comparator ordering of the re-sort is transitive. -/
theorem sortLe_trans (a b c : ExpertProfile)
    (hab : sortLe a b = true) (hbc : sortLe b c = true) : sortLe a c = true := by
  simp only [sortLe, decide_eq_true_eq] at hab hbc ⊢
  rcases ha : a.valueScore with _ | x <;> rcases hb : b.valueScore with _ | y <;>
    rcases hc : c.valueScore with _ | z <;>
      simp_all [jsCompare] <;> linarith

/-- The comparator ordering of the re-sort is total. -/
theorem sortLe_total (a b : ExpertProfile) : (sortLe a b || sortLe b a) = true := by
  simp only [sortLe, Bool.or_eq_true, decide_eq_true_eq]
  rcases ha : a.valueScore with _ | x <;> rcases hb : b.valueScore with _ | y
  · simp [jsCompare, ha, hb]
  · norm_num [jsCompare, ha, hb]
  · norm_num [jsCompare, ha, hb]
  · simp only [jsCompare, ha, hb]
    rcases le_total x y with h | h
    · right
      linarith
    · left
      linarith

/-- C6: after the post-enrichment re-sort, records with defined value scores
are ordered with the higher score first, every record with an undefined
score comes after all records with defined scores, and the relative order of
records with undefined scores is exactly their order in the input. -/
theorem sortExperts_ordering (l : List ExpertProfile) :
    ((sortExperts l).Pairwise fun a b =>
      ∀ x y, a.valueScore = some x → b.valueScore = some y → y ≤ x) ∧
    ((sortExperts l).Pairwise fun a b =>
      b.valueScore.isSome = true → a.valueScore.isSome = true) ∧
    (sortExperts l).filter (fun e => e.valueScore.isNone) =
      l.filter (fun e => e.valueScore.isNone) := by
  have hp := List.sorted_mergeSort sortLe_trans sortLe_total l
  refine ⟨hp.imp ?_, hp.imp ?_, ?_⟩
  · intro a b hab
    intro x y hx hy
    simp only [sortLe, decide_eq_true_eq, jsCompare, hx, hy] at hab
    linarith
  · intro a b hab hb
    rcases ha : a.valueScore with _ | x
    · rcases hb2 : b.valueScore with _ | y
      · simp [hb2] at hb
      · simp only [sortLe, decide_eq_true_eq, jsCompare, ha, hb2] at hab
        linarith
    · simp
  · have hpair : (l.filter (fun e => e.valueScore.isNone)).Pairwise
        (fun a b => sortLe a b = true) := by
      apply List.pairwise_of_forall_mem_list
      intro a haf b hbf
      have hpa := List.of_mem_filter haf
      have hpb := List.of_mem_filter hbf
      simp only [Option.isNone_iff_eq_none] at hpa hpb
      simp [sortLe, jsCompare, hpa, hpb]
    have hsub : (l.filter (fun e => e.valueScore.isNone)).Sublist (sortExperts l) :=
      List.sublist_mergeSort sortLe_trans sortLe_total hpair (List.filter_sublist l)
    have hsub2 := List.Sublist.filter (fun e => e.valueScore.isNone) hsub
    rw [List.filter_filter] at hsub2
    simp only [Bool.and_self] at hsub2
    have hlen : (l.filter (fun e => e.valueScore.isNone)).length =
        ((sortExperts l).filter (fun e => e.valueScore.isNone)).length := by
      rw [← List.countP_eq_length_filter, ← List.countP_eq_length_filter]
      exact ((List.mergeSort_perm l sortLe).countP_eq _).symm
    exact (hsub2.eq_of_length hlen).symm

/-- Witness for C6: on a concrete mixed list, the undefined-score records of
the sorted output appear in their input order. -/
theorem sortExperts_ordering_witness :
    (sortExperts sortSample).filter (fun e => e.valueScore.isNone) =
      sortSample.filter (fun e => e.valueScore.isNone) :=
  (sortExperts_ordering sortSample).2.2

/-- `applyFetch` preserves the length of the record list. -/
theorem applyFetch_length (fetch : ℕ → Option ProfileData) (lo hi : ℕ) :
    ∀ (j : ℕ) (l : List ExpertProfile), (applyFetch fetch lo hi j l).length = l.length := by
  intro j l
  induction l generalizing j with
  | nil => rfl
  | cons e es ih => simp [applyFetch, ih]

/-- Pointwise description of one batch application. -/
theorem applyFetch_getElem? (fetch : ℕ → Option ProfileData) (lo hi : ℕ) :
    ∀ (l : List ExpertProfile) (j k : ℕ),
      (applyFetch fetch lo hi j l)[k]? =
        (l[k]?).map
          (fun e => if lo ≤ j + k ∧ j + k < hi then applyResult (fetch (j + k)) e else e) := by
  intro l
  induction l with
  | nil =>
    intro j k
    simp [applyFetch]
  | cons e es ih =>
    intro j k
    cases k with
    | zero => simp [applyFetch]
    | succ k =>
      simp only [applyFetch, List.getElem?_cons_succ]
      rw [show j + (k + 1) = (j + 1) + k by omega]
      exact ih (j + 1) k

/-- Pointwise description of the batch loop, given enough fuel to finish. -/
theorem enrichGo_getElem? (fetch : ℕ → Option ProfileData) :
    ∀ (fuel i : ℕ) (l : List ExpertProfile) (j : ℕ), l.length ≤ i + 3 * fuel →
      (enrichGo fetch fuel i l)[j]? =
        if i ≤ j then (l[j]?).map (applyResult (fetch j)) else l[j]? := by
  intro fuel
  induction fuel with
  | zero =>
    intro i l j hle
    simp only [enrichGo]
    by_cases hij : i ≤ j
    · rw [if_pos hij, List.getElem?_eq_none (by omega : l.length ≤ j)]
      rfl
    · rw [if_neg hij]
  | succ fuel ih =>
    intro i l j hle
    simp only [enrichGo]
    by_cases hi : i < l.length
    · rw [if_pos hi,
        ih (i + 3) (applyFetch fetch i (i + 3) 0 l) j (by rw [applyFetch_length]; omega),
        applyFetch_getElem?]
      simp only [Nat.zero_add]
      by_cases h1 : i + 3 ≤ j
      · rw [if_pos h1, if_pos (by omega : i ≤ j)]
        cases l[j]? with
        | none => rfl
        | some v =>
          simp only [Option.map_some']
          rw [if_neg (by omega : ¬ (i ≤ j ∧ j < i + 3))]
      · rw [if_neg h1]
        by_cases h2 : i ≤ j
        · rw [if_pos h2]
          cases l[j]? with
          | none => rfl
          | some v =>
            simp only [Option.map_some']
            rw [if_pos (show i ≤ j ∧ j < i + 3 from ⟨h2, by omega⟩)]
        · rw [if_neg h2]
          cases l[j]? with
          | none => rfl
          | some v =>
            simp only [Option.map_some']
            rw [if_neg (by omega : ¬ (i ≤ j ∧ j < i + 3))]
    · rw [if_neg hi]
      by_cases h2 : i ≤ j
      · rw [if_pos h2, List.getElem?_eq_none (by omega : l.length ≤ j)]
        rfl
      · rw [if_neg h2]

/-- Pointwise description of `enrichProfiles`: position `j` of the output is
position `j` of the input with its own fetch outcome applied. -/
theorem enrichProfiles_getElem? (experts : List ExpertProfile)
    (fetch : ℕ → Option ProfileData) (j : ℕ) :
    (enrichProfiles experts fetch)[j]? = (experts[j]?).map (applyResult (fetch j)) := by
  have h := enrichGo_getElem? fetch experts.length 0 experts j (by omega)
  simpa [enrichProfiles] using h

/-- A fetch outcome never changes a record's rate. -/
theorem applyResult_rate (d : Option ProfileData) (e : ExpertProfile) :
    (applyResult d e).rate = e.rate := by cases d <;> rfl

/-- Every record of an enrichment result shares its rate with some input
record. -/
theorem enrichProfiles_mem_rate {l : List ExpertProfile}
    {fetch : ℕ → Option ProfileData} {e : ExpertProfile}
    (h : e ∈ enrichProfiles l fetch) : ∃ x ∈ l, e.rate = x.rate := by
  obtain ⟨n, hn⟩ := List.mem_iff_getElem?.mp h
  rw [enrichProfiles_getElem?] at hn
  obtain ⟨x, hx, hex⟩ := Option.map_eq_some'.mp hn
  exact ⟨x, List.mem_iff_getElem?.mpr ⟨n, hx⟩, by rw [← hex, applyResult_rate]⟩

/-- C7: in `enrichProfiles`, a failed fetch for record `i` leaves record `i`
exactly as it was (all fields, in particular `rating`, `reviewCount` and
`valueScore`), and the failure has no effect on any other record `j ≠ i`:
the output at `j` is the same as under any fetch that differs only at `i`,
so later batches are processed as if the failure had not happened. -/
theorem enrichProfiles_partial_failure (experts : List ExpertProfile)
    (fetch fetch2 : ℕ → Option ProfileData) (i : ℕ)
    (hfail : fetch i = none) (hagree : ∀ j, j ≠ i → fetch2 j = fetch j) :
    (enrichProfiles experts fetch)[i]? = experts[i]? ∧
    ∀ j, j ≠ i →
      (enrichProfiles experts fetch)[j]? = (enrichProfiles experts fetch2)[j]? := by
  constructor
  · rw [enrichProfiles_getElem?, hfail]
    cases experts[i]? <;> rfl
  · intro j hj
    rw [enrichProfiles_getElem?, enrichProfiles_getElem?, hagree j hj]

/-- Witness for C7: on four concrete records spanning two batches, a failed
fetch at position 0 leaves record 0 unchanged, and position 3 (second batch)
is unaffected by whether the fetch at position 0 failed or succeeded. -/
theorem enrichProfiles_partial_failure_witness :
    (enrichProfiles sampleExperts
      (fun j => if j = 3 then some ⟨some 4, some 10⟩ else none))[0]? =
        sampleExperts[0]? ∧
    (enrichProfiles sampleExperts
      (fun j => if j = 3 then some ⟨some 4, some 10⟩ else none))[3]? =
      (enrichProfiles sampleExperts
        (fun j => if j = 0 then some ⟨some 2, some 5⟩
          else if j = 3 then some ⟨some 4, some 10⟩ else none))[3]? := by
  have h := enrichProfiles_partial_failure sampleExperts
    (fun j => if j = 3 then some ⟨some 4, some 10⟩ else none)
    (fun j => if j = 0 then some ⟨some 2, some 5⟩
      else if j = 3 then some ⟨some 4, some 10⟩ else none)
    0 (by norm_num) (by intro j hj; simp [hj])
  exact ⟨h.1, h.2 3 (by norm_num)⟩

/-- Records of the pre-enrichment search result respect positive rate
bounds. -/
theorem searchResults_rate_bounds {items : List Card} {limit? : Option ℕ}
    {mr Mr : ℚ} (hmr : 0 < mr) (hMr : 0 < Mr) {e : ExpertProfile}
    (h : e ∈ searchResults items limit? (some mr) (some Mr)) :
    mr ≤ e.rate ∧ e.rate ≤ Mr := by
  obtain ⟨e1, h1, rfl⟩ := List.mem_map.mp h
  obtain ⟨c, _, rfl, hsl, hsh⟩ := extractLoop_mem h1
  have hrate : (withValueScore (cardRecord c)).rate = c.rateNum := rfl
  rw [hrate]
  constructor
  · refine le_of_not_lt fun hlt => ?_
    rw [show skipLow (some mr) c.rateNum = true by simp [skipLow, hmr.ne', hlt]] at hsl
    exact absurd hsl (by simp)
  · refine le_of_not_lt fun hlt => ?_
    rw [show skipHigh (some Mr) c.rateNum = true by simp [skipHigh, hMr.ne', hlt]] at hsh
    exact absurd hsh (by simp)

/-- C5: when both rate bounds are given and positive, every record of the
search result lies within `[minRate, maxRate]` — through extraction,
enrichment (which never changes a rate) and the final re-sort. -/
theorem searchExperts_rate_bounds (items : List Card) (limit? : Option ℕ)
    (mr Mr : ℚ) (enrich? : Option ℕ) (fetch : ℕ → Option ProfileData)
    (hmr : 0 < mr) (hMr : 0 < Mr) :
    ∀ e ∈ searchExperts items limit? (some mr) (some Mr) enrich? fetch,
      mr ≤ e.rate ∧ e.rate ≤ Mr := by
  intro e he
  cases enrich? with
  | none => exact searchResults_rate_bounds hmr hMr he
  | some n =>
    simp only [searchExperts] at he
    by_cases hcond : 0 < n ∧ searchResults items limit? (some mr) (some Mr) ≠ []
    · rw [if_pos hcond] at he
      rw [sortExperts, List.mem_mergeSort] at he
      rcases List.mem_append.mp he with hmem | hmem
      · obtain ⟨x, hx, hrate⟩ := enrichProfiles_mem_rate hmem
        rw [hrate]
        exact searchResults_rate_bounds hmr hMr (List.mem_of_mem_take hx)
      · exact searchResults_rate_bounds hmr hMr (List.mem_of_mem_drop hmem)
    · rw [if_neg hcond] at he
      exact searchResults_rate_bounds hmr hMr he

/-- Witness for C5: with bounds `[1, 10]`, the concrete rate-5 card appears
in the search result and its rate satisfies both bounds. -/
theorem searchExperts_rate_bounds_witness :
    (cardRecord cardBob ∈
      searchExperts [cardBob] none (some 1) (some 10) none (fun _ => none)) ∧
    1 ≤ (cardRecord cardBob).rate ∧ (cardRecord cardBob).rate ≤ 10 := by
  refine ⟨by decide, ?_⟩
  exact searchExperts_rate_bounds [cardBob] none 1 10 none (fun _ => none)
    (by norm_num) (by norm_num) (cardRecord cardBob) (by decide)

/-- Counterexample for C5 as stated: with both bounds given as
`minRate = 1`, `maxRate = 0`, the rate-5 card is returned (the zero upper
bound is disabled by JavaScript truthiness), and its rate violates
`rate ≤ maxRate`. -/
theorem searchExperts_rate_bounds_counterexample :
    (cardRecord cardBob ∈
      searchExperts [cardBob] none (some 1) (some 0) none (fun _ => none)) ∧
    ¬ ((cardRecord cardBob).rate ≤ 0) := by
  constructor
  · decide
  · decide

/-- A character list starts with itself. -/
theorem listStartsWith_self : ∀ l : List Char, listStartsWith l l = true := by
  intro l
  induction l with
  | nil => rfl
  | cons c cs ih => simp [listStartsWith, ih]

/-- A character list includes itself. -/
theorem listIncludes_self : ∀ l : List Char, listIncludes l l = true := by
  intro l
  cases l with
  | nil => rfl
  | cons c cs => simp [listIncludes, listStartsWith_self]

/-- Every string includes itself. -/
theorem strIncludes_self (s : String) : strIncludes s s = true := by
  simp [strIncludes, listIncludes_self]

/-- Every mapping entry has a nonempty key and a nonempty path. -/
theorem CATEGORY_MAP_entries_nonempty :
    ∀ kp ∈ CATEGORY_MAP, 0 < kp.1.length ∧ kp.2 ≠ "" := by decide

/-- An exact category match never yields an empty path. -/
theorem lookupExact_ne_empty {q path : String} (h : lookupExact q = some path) :
    path ≠ "" := by
  obtain ⟨kp, hfind, hkp⟩ := Option.map_eq_some'.mp h
  have hmem := List.mem_of_find?_eq_some hfind
  rw [← hkp]
  exact (CATEGORY_MAP_entries_nonempty kp hmem).2

/-- Invariant of the partial-match fold: the final accumulator is the
initial one or an entry whose key is a substring of the query; its key never
shrinks; and it is at least as long as every substring key of the list. -/
theorem bestFold_spec (q : String) :
    ∀ (entries : List (String × String)) (acc : String × String),
      (entries.foldl (bestStep q) acc = acc ∨
        (entries.foldl (bestStep q) acc ∈ entries ∧
          strIncludes q (entries.foldl (bestStep q) acc).1 = true)) ∧
      acc.1.length ≤ (entries.foldl (bestStep q) acc).1.length ∧
      (∀ kp ∈ entries, strIncludes q kp.1 = true →
        kp.1.length ≤ (entries.foldl (bestStep q) acc).1.length) := by
  intro entries
  induction entries with
  | nil =>
    intro acc
    refine ⟨Or.inl rfl, le_refl _, ?_⟩
    intro kp hkp
    simp at hkp
  | cons e es ih =>
    intro acc
    rw [List.foldl_cons]
    obtain ⟨ih1, ih2, ih3⟩ := ih (bestStep q acc e)
    by_cases hstep : (strIncludes q e.1 && decide (acc.1.length < e.1.length)) = true
    · have hse : bestStep q acc e = e := by rw [bestStep, if_pos hstep]
      have hs12 : strIncludes q e.1 = true ∧ acc.1.length < e.1.length := by
        simpa using hstep
      rw [hse] at ih1 ih2 ih3 ⊢
      refine ⟨?_, ?_, ?_⟩
      · rcases ih1 with h | ⟨hm, hs⟩
        · right
          rw [h]
          exact ⟨List.mem_cons_self _ _, hs12.1⟩
        · right
          exact ⟨List.mem_cons_of_mem _ hm, hs⟩
      · exact (le_of_lt hs12.2).trans ih2
      · intro kp hkp hsk
        rcases List.mem_cons.mp hkp with heq | hm
        · rw [heq]
          exact ih2
        · exact ih3 kp hm hsk
    · have hse : bestStep q acc e = acc := by rw [bestStep, if_neg hstep]
      rw [hse] at ih1 ih2 ih3 ⊢
      refine ⟨?_, ih2, ?_⟩
      · rcases ih1 with h | ⟨hm, hs⟩
        · exact Or.inl h
        · exact Or.inr ⟨List.mem_cons_of_mem _ hm, hs⟩
      · intro kp hkp hsk
        rcases List.mem_cons.mp hkp with heq | hm
        · have hnotlt : ¬ (acc.1.length < kp.1.length) := by
            intro hlt
            rw [heq] at hsk hlt
            exact hstep (by simp [hsk, hlt])
          exact (le_of_not_lt hnotlt).trans ih2
        · exact ih3 kp hm hsk

/-- C8: query resolution is total and deterministic. An exact match of the
lower-cased, trimmed query against the category map wins outright;
otherwise the scan selects a map entry whose key is a substring of the query
of maximal length among all such keys and returns its path; otherwise the
unfiltered browse URL is returned. Concretely, `"marketing strategy"`
resolves to its exact category path and `"completely unknown topic"` to the
browse fallback. -/
theorem queryToBrowseUrl_resolution (query : String) :
    (∀ path, lookupExact (strTrim (strLower query)) = some path →
      queryToBrowseUrl query = "https://clarity.fm/browse/" ++ path) ∧
    (lookupExact (strTrim (strLower query)) = none →
      (∃ kp, kp ∈ CATEGORY_MAP ∧
        strIncludes (strTrim (strLower query)) kp.1 = true ∧
        (∀ kp2 ∈ CATEGORY_MAP, strIncludes (strTrim (strLower query)) kp2.1 = true →
          kp2.1.length ≤ kp.1.length) ∧
        queryToBrowseUrl query = "https://clarity.fm/browse/" ++ kp.2) ∨
      ((∀ kp ∈ CATEGORY_MAP, strIncludes (strTrim (strLower query)) kp.1 = false) ∧
        queryToBrowseUrl query = "https://clarity.fm/browse")) ∧
    queryToBrowseUrl "marketing strategy" = "https://clarity.fm/browse/sales-marketing" ∧
    queryToBrowseUrl "completely unknown topic" = "https://clarity.fm/browse" := by
  refine ⟨?_, ?_, by decide, by decide⟩
  · intro path hp
    have hne := lookupExact_ne_empty hp
    simp only [queryToBrowseUrl]
    rw [hp]
    simp [hne]
  · intro hnone
    by_cases hex : ∃ kp, kp ∈ CATEGORY_MAP ∧
        strIncludes (strTrim (strLower query)) kp.1 = true
    · left
      obtain ⟨kp0, hm0, hs0⟩ := hex
      obtain ⟨h1, h2, h3⟩ := bestFold_spec (strTrim (strLower query)) CATEGORY_MAP ("", "")
      have hr1len :
          0 < (CATEGORY_MAP.foldl (bestStep (strTrim (strLower query))) ("", "")).1.length :=
        lt_of_lt_of_le (CATEGORY_MAP_entries_nonempty kp0 hm0).1 (h3 kp0 hm0 hs0)
      rcases h1 with heq | ⟨hmem, hs⟩
      · rw [heq] at hr1len
        simp at hr1len
      · refine ⟨_, hmem, hs, h3, ?_⟩
        have hr2 := (CATEGORY_MAP_entries_nonempty _ hmem).2
        simp only [queryToBrowseUrl]
        rw [hnone]
        simp only [queryPartialBranch, bestCategoryMatch]
        rw [if_pos hr2]
    · right
      push_neg at hex
      have hall : ∀ kp ∈ CATEGORY_MAP,
          strIncludes (strTrim (strLower query)) kp.1 = false := by
        intro kp hm
        simpa using hex kp hm
      refine ⟨hall, ?_⟩
      obtain ⟨h1, h2, h3⟩ := bestFold_spec (strTrim (strLower query)) CATEGORY_MAP ("", "")
      have hracc :
          CATEGORY_MAP.foldl (bestStep (strTrim (strLower query))) ("", "") = ("", "") := by
        rcases h1 with heq | ⟨hmem, hs⟩
        · exact heq
        · rw [hall _ hmem] at hs
          exact absurd hs (by simp)
      simp only [queryToBrowseUrl]
      rw [hnone]
      simp only [queryPartialBranch, bestCategoryMatch]
      rw [hracc]
      simp

/-- Witness for C8: resolving the exact key `"seo"` through the theorem
yields its category URL. -/
theorem queryToBrowseUrl_resolution_witness :
    queryToBrowseUrl "seo" =
      "https://clarity.fm/browse/sales-marketing/search-engine-optimization" :=
  (queryToBrowseUrl_resolution "seo").1
    "sales-marketing/search-engine-optimization" (by decide)
